import Mathlib

/-! Formula evaluation of the spreadsheet core (`spreadsheet/formula.cpp`).

A shallow embedding of `formula.cpp`: the cell-resolution lambda of
`Formula::Evaluate`, the `try`/`catch` around `FormulaAST::Execute`,
`Formula::GetReferencedCells`, `ParseFormula` and `operator<<` for
`FormulaError`.

Conventions of the embedding.

* C++ exceptions are values of `Except CppException _`; a `catch` clause is a
  `match` on the error.
* A `double` is modelled by the rational number it denotes.  The conversion of a
  decimal text (`stod`) rounds to the nearest `double`, ties to even, and reports
  the range errors of `strtod`.  The arithmetic of the expression tree, which is
  external to `formula.cpp`, is modelled as exact arithmetic.
* `std::string` is `String`, read as its list of characters.
* `std::set<Position>` is the strictly increasing list of its elements.
-/

set_option exponentiation.threshold 4096
set_option maxRecDepth 100000

namespace Spreadsheet

/-! ## Data model (declarations of `common.h`) -/

/-- Modelled from the spec: `Position` of `common.h`, a (row, column) pair of `int`s. -/
structure Position where
  row : Int
  col : Int
  deriving DecidableEq

/-- Modelled from the spec: `operator<` of `Position` in `common.h`, the row-major order
(rows first, columns within a row). -/
def Position.less (a b : Position) : Bool :=
  decide (a.row < b.row) || (decide (a.row = b.row) && decide (a.col < b.col))

instance : LT Position := ⟨fun a b => Position.less a b = true⟩

instance (a b : Position) : Decidable (a < b) :=
  inferInstanceAs (Decidable (Position.less a b = true))

/-- Modelled from the spec: `FormulaError::Category` of `common.h`, the three error kinds. -/
inductive Category where
  | Ref
  | Value
  | Div0
  deriving DecidableEq

/-- Modelled from the spec: `FormulaError` of `common.h`; it carries only its kind. -/
structure FormulaError where
  category : Category
  deriving DecidableEq

/-- Modelled from the spec: `FormulaError::ToString` of `common.h`, the literal rendering of
each error kind. -/
def FormulaError.ToString (fe : FormulaError) : String :=
  match fe.category with
  | Category.Ref => "#REF!"
  | Category.Value => "#VALUE!"
  | Category.Div0 => "#DIV/0!"

/-- The `CellInterface::Value` variant: `std::variant<std::string, double, FormulaError>`. -/
inductive CellValue where
  | text (s : String)
  | number (d : ℚ)
  | error (fe : FormulaError)
  deriving DecidableEq

/-- The `FormulaInterface::Value` variant: `std::variant<double, FormulaError>`. -/
inductive FormulaValue where
  | number (d : ℚ)
  | error (fe : FormulaError)
  deriving DecidableEq

/-- The part of `CellInterface` used by the formula: `GetValue()`. -/
structure CellInterface where
  GetValue : CellValue

/-- The part of `SheetInterface` used by the formula: `GetCell(pos)`, `none` for `nullptr`. -/
structure SheetInterface where
  GetCell : Position → Option CellInterface

/-- Modelled from the spec: the syntax error with which the external parser of `FormulaAST.h`
fails; it is a `std::exception`. -/
structure ParsingError where
  what : String
  deriving DecidableEq

/-- The exceptions that travel through `formula.cpp`: a thrown `FormulaError` (which is not a
`std::exception`), the two `std::exception`s that `std::stod` throws, the parser's
syntax error and the `FormulaException` of `common.h` (both `std::exception`s). -/
inductive CppException where
  | formulaError (fe : FormulaError)
  | invalid_argument
  | out_of_range
  | parsingError (e : ParsingError)
  | formulaException (what : String)
  deriving DecidableEq

/-- Whether a handler `catch (const std::exception&)` catches the exception. -/
def CppException.isStdException : CppException → Bool
  | CppException.formulaError _ => false
  | _ => true

/-! ## `std::isdigit` and `std::stod` -/

/-- The `std::isdigit` test: the ten decimal digits. -/
def isdigit (ch : Char) : Bool :=
  decide ('0'.toNat ≤ ch.toNat) && decide (ch.toNat ≤ '9'.toNat)

/-- Value of a decimal digit character. -/
def digitValue (ch : Char) : Nat :=
  ch.toNat - '0'.toNat

/-- Value of a sequence of decimal digits read as a natural number, most significant first;
`acc` is the value of the digits already read. -/
def digitsValue (acc : Nat) : List Char → Nat
  | [] => acc
  | ch :: rest => digitsValue (10 * acc + digitValue ch) rest

/-- The subject sequence that `strtod` recognises at the start of a text that begins
with a digit or a dot: the leading digits, then, if a dot follows, the dot and the
digits after it.  The result is the pair of the two digit runs. What follows them is not read. -/
def decimalPrefix (s : List Char) : List Char × List Char :=
  let intPart := s.takeWhile isdigit
  match s.dropWhile isdigit with
  | '.' :: rest => (intPart, rest.takeWhile isdigit)
  | _ => (intPart, [])

/-- Number of binary digits of `n`, one bit at a time; `fuel` bounds the number of digits. -/
def bitLengthAux : Nat → Nat → Nat
  | 0, _ => 0
  | fuel + 1, n => if n = 0 then 0 else bitLengthAux fuel (n / 2) + 1

/-- Number of binary digits of `n`, 32 bits at a time; `fuel` bounds the number of steps. -/
def bitLengthChunk : Nat → Nat → Nat
  | 0, _ => 0
  | fuel + 1, n =>
      if n < 2 ^ 32 then bitLengthAux 32 n else bitLengthChunk fuel (n / 2 ^ 32) + 32

/-- Number of binary digits of `n`: the least `L` with `n < 2^L`. -/
def bitLength (n : Nat) : Nat := bitLengthChunk n n

/-- The integer nearest to `num / den`, a tie going to the even one (the rounding mode of
`strtod`). -/
def roundTiesEven (num den : Nat) : Nat :=
  if den < 2 * (num % den) || (2 * (num % den) == den && (num / den) % 2 == 1) then num / den + 1
  else num / den

/-- The natural number of at most 53 significant bits nearest to `num / den`, ties to even: the
quotient is rounded to a multiple of `2^(L - 53)`, where `L` is the number of binary digits of
its integer part (to an integer when `L ≤ 53`). -/
def roundTo53Bits (num den : Nat) : Nat :=
  let unit := 2 ^ (bitLength (num / den) - 53)
  roundTiesEven num (den * unit) * unit

/-- The `double` nearest to the decimal `mant / 10^scale`, in units of `2^-1074` (the smallest
positive `double`, of which every `double` is a multiple with at most 53 significant bits). -/
def nearestDoubleUnits (mant scale : Nat) : Nat :=
  roundTo53Bits (mant * 2 ^ 1074) (10 ^ scale)

/-- The `double` nearest to the decimal `mant / 10^scale`, ties to even: the correctly rounded
result of `strtod`. -/
def nearestDouble (mant scale : Nat) : ℚ :=
  (nearestDoubleUnits mant scale : ℚ) / 2 ^ 1074

/-- Whether `strtod` reports `ERANGE` for the decimal `mant / 10^scale`, in integer arithmetic.
Overflow: the value is at or above `2^1024 - 2^970`, the midpoint between the largest finite
`double` and `2^1024`, so it rounds to infinity.  Underflow, as glibc reports it on x86-64
(tininess detected after rounding): the value is below `2^-1022 - 2^-1076`, so that rounded to
53 bits it is still below the smallest normal `double` `2^-1022`, and it is not a multiple of
`2^-1074`, so the result is inexact. -/
def strtodRangeError (mant scale : Nat) : Bool :=
  decide ((2 ^ 1024 - 2 ^ 970) * 10 ^ scale ≤ mant) ||
    (decide (4 * (mant * 2 ^ 1074) < (2 ^ 54 - 1) * 10 ^ scale) &&
      decide ((mant * 2 ^ 1074) % 10 ^ scale ≠ 0))

/-- The `std::stod` conversion on the texts that reach it in `Formula::Evaluate` (texts of digits
and dots only, so no white space, sign, exponent, hexadecimal or `inf`/`nan` form can occur):
it converts the longest leading decimal number to the nearest `double` and ignores the rest of
the text; it throws `std::invalid_argument` when no digit can be converted and
`std::out_of_range` when `strtod` reports a range error. -/
def stod (s : String) : Except CppException ℚ :=
  let (intPart, fracPart) := decimalPrefix s.data
  if intPart.isEmpty && fracPart.isEmpty then
    Except.error CppException.invalid_argument
  else if strtodRangeError (digitsValue 0 (intPart ++ fracPart)) fracPart.length then
    Except.error CppException.out_of_range
  else
    Except.ok (nearestDouble (digitsValue 0 (intPart ++ fracPart)) fracPart.length)

/-! ## The expression tree (`FormulaAST.h`, external to `formula.cpp`) -/

/-- Modelled from the spec: the unary operators of the arithmetic formula language. -/
inductive UnaryOp where
  | plus
  | minus
  deriving DecidableEq

/-- Modelled from the spec: the binary operators of the arithmetic formula language. -/
inductive BinaryOp where
  | add
  | subtract
  | multiply
  | divide
  deriving DecidableEq

/-- Modelled from the spec: the expression tree of `FormulaAST.h`, arithmetic over number
literals and cell references. -/
inductive Expr where
  | number (value : ℚ)
  | cell (pos : Position)
  | unary (op : UnaryOp) (operand : Expr)
  | binary (op : BinaryOp) (lhs rhs : Expr)
  deriving DecidableEq

/-- Modelled from the spec: the value of a unary operation. -/
def UnaryOp.apply : UnaryOp → ℚ → ℚ
  | UnaryOp.plus, x => x
  | UnaryOp.minus, x => -x

/-- Modelled from the spec: the value of a binary operation; a division by zero raises the
`Div0` formula error. -/
def BinaryOp.apply : BinaryOp → ℚ → ℚ → Except CppException ℚ
  | BinaryOp.add, x, y => Except.ok (x + y)
  | BinaryOp.subtract, x, y => Except.ok (x - y)
  | BinaryOp.multiply, x, y => Except.ok (x * y)
  | BinaryOp.divide, x, y =>
      if y = 0 then Except.error (CppException.formulaError ⟨Category.Div0⟩)
      else Except.ok (x / y)

/-- Modelled from the spec: `FormulaAST::Execute` of `FormulaAST.h`, the evaluation of the tree
with a cell-lookup callback, operands left to right.  An exception thrown by the callback or
by an operation aborts the evaluation and propagates. -/
def Expr.Execute (resolve : Position → Except CppException ℚ) : Expr → Except CppException ℚ
  | Expr.number value => Except.ok value
  | Expr.cell pos => resolve pos
  | Expr.unary op operand =>
      match Expr.Execute resolve operand with
      | Except.ok x => Except.ok (op.apply x)
      | Except.error ex => Except.error ex
  | Expr.binary op lhs rhs =>
      match Expr.Execute resolve lhs with
      | Except.error ex => Except.error ex
      | Except.ok x =>
          match Expr.Execute resolve rhs with
          | Except.error ex => Except.error ex
          | Except.ok y => op.apply x y

/-- Observation of `Expr.Execute`: the positions on which it invokes the callback, in the order
of the calls (a position is listed also when the call throws); the right operand of a binary
operation is reached only when the left one returned. -/
def Expr.Resolved (resolve : Position → Except CppException ℚ) : Expr → List Position
  | Expr.number _ => []
  | Expr.cell pos => [pos]
  | Expr.unary _ operand => Expr.Resolved resolve operand
  | Expr.binary _ lhs rhs =>
      match Expr.Execute resolve lhs with
      | Except.error _ => Expr.Resolved resolve lhs
      | Except.ok _ => Expr.Resolved resolve lhs ++ Expr.Resolved resolve rhs

/-- The fault that aborts an evaluation of the tree: the resolution of a cell by the callback,
or an arithmetic operation. -/
inductive Fault where
  | resolution (pos : Position)
  | operation
  deriving DecidableEq

/-- Observation of `Expr.Execute`: the first fault it meets, `none` when the evaluation returns a
number; the traversal is that of `Expr.Execute`. -/
def Expr.FirstFault (resolve : Position → Except CppException ℚ) : Expr → Option Fault
  | Expr.number _ => none
  | Expr.cell pos =>
      match resolve pos with
      | Except.ok _ => none
      | Except.error _ => some (Fault.resolution pos)
  | Expr.unary _ operand => Expr.FirstFault resolve operand
  | Expr.binary op lhs rhs =>
      match Expr.Execute resolve lhs with
      | Except.error _ => Expr.FirstFault resolve lhs
      | Except.ok x =>
          match Expr.Execute resolve rhs with
          | Except.error _ => Expr.FirstFault resolve rhs
          | Except.ok y =>
              match op.apply x y with
              | Except.ok _ => none
              | Except.error _ => some Fault.operation

/-- Modelled from the spec: `FormulaAST` of `FormulaAST.h`, the parsed tree together with the
positions it lists (`GetCells()`), in the tree's own order and multiplicity. -/
structure FormulaAST where
  root_expr_ : Expr
  cells_ : List Position

/-- The `FormulaAST::GetCells` accessor. -/
def FormulaAST.GetCells (ast : FormulaAST) : List Position := ast.cells_

/-- The `FormulaAST::Execute` entry point. -/
def FormulaAST.Execute (ast : FormulaAST) (resolve : Position → Except CppException ℚ) :
    Except CppException ℚ :=
  ast.root_expr_.Execute resolve

/-! ## `class Formula` -/

/-- The `Formula` class: the tree `ast_` and the vector `referenced_cells_`. -/
structure Formula where
  ast_ : FormulaAST
  referenced_cells_ : List Position

/-- The constructor `Formula::Formula(std::string expression)`: parses the text with the
external parser `ParseFormulaAST` (whose exception propagates) and copies `ast_.GetCells()`
into `referenced_cells_`. -/
def Formula.ctor (ParseFormulaAST : String → Except ParsingError FormulaAST)
    (expression : String) : Except CppException Formula :=
  match ParseFormulaAST expression with
  | Except.error e => Except.error (CppException.parsingError e)
  | Except.ok ast => Except.ok { ast_ := ast, referenced_cells_ := ast.GetCells }

/-- The lambda passed to `ast_.Execute` in `Formula::Evaluate`: the value of the cell at `pos`
as a number.
1. no cell: `0`; 2. a number: itself; 3. a text: `std::stod` of it when every character
is a digit or a dot, the `Value` error otherwise, every exception of the conversion being
replaced by the `Value` error (`catch (...)`); 4. an error: thrown. -/
def resolveCell (sheet : SheetInterface) (pos : Position) : Except CppException ℚ :=
  match sheet.GetCell pos with
  | none => Except.ok 0
  | some cell =>
      match cell.GetValue with
      | CellValue.number d => Except.ok d
      | CellValue.text tmp =>
          match (if tmp.data.all (fun ch => isdigit ch || ch == '.') then stod tmp
                 else Except.error (CppException.formulaError ⟨Category.Value⟩)) with
          | Except.ok d => Except.ok d
          | Except.error _ => Except.error (CppException.formulaError ⟨Category.Value⟩)
      | CellValue.error fe => Except.error (CppException.formulaError fe)

/-- The method `Formula::Evaluate`: the tree is executed with `resolveCell`; a thrown
`FormulaError` is caught and returned as the value, any other exception propagates. -/
def Formula.Evaluate (f : Formula) (sheet : SheetInterface) : Except CppException FormulaValue :=
  match f.ast_.Execute (resolveCell sheet) with
  | Except.ok d => Except.ok (FormulaValue.number d)
  | Except.error (CppException.formulaError ex_fe) => Except.ok (FormulaValue.error ex_fe)
  | Except.error ex => Except.error ex

/-- Insertion into a `std::set<Position>` kept as a strictly increasing list: the element goes
before the first greater one, and is dropped when an equivalent element (neither less nor
greater under `operator<`) is already there. -/
def setInsert (x : Position) : List Position → List Position
  | [] => [x]
  | y :: ys =>
      if Position.less x y then x :: y :: ys
      else if Position.less y x then y :: setInsert x ys
      else y :: ys

/-- The range constructor `std::set<Position>(first, last)`: every element of the range is
inserted, in order, into the set built so far. -/
def setOfRange (range : List Position) : List Position :=
  range.foldl (fun unique cell => setInsert cell unique) []

/-- The method `Formula::GetReferencedCells`: `referenced_cells_` goes through a `std::set` and
the set is copied out in its iteration order. -/
def Formula.GetReferencedCells (f : Formula) : List Position :=
  (setOfRange f.referenced_cells_).foldl (fun result cell => result ++ [cell]) []

/-- The function `ParseFormula`: the constructed formula, with every `std::exception` of the
construction replaced by `FormulaException("Formula parse error")`. -/
def ParseFormula (ParseFormulaAST : String → Except ParsingError FormulaAST)
    (expression : String) : Except CppException Formula :=
  match Formula.ctor ParseFormulaAST expression with
  | Except.ok formula => Except.ok formula
  | Except.error ex =>
      if ex.isStdException then Except.error (CppException.formulaException "Formula parse error")
      else Except.error ex

/-- The output stream of `operator<<`, as the text written to it so far (formatting state of the
stream is outside the model). -/
structure OStream where
  written : String
  deriving DecidableEq

/-- Insertion of a text into the stream. -/
def OStream.put (output : OStream) (text : String) : OStream :=
  { written := output.written ++ text }

/-- The operator `std::ostream& operator<<(std::ostream& output, FormulaError fe)`. -/
def FormulaError.output (output : OStream) (fe : FormulaError) : OStream :=
  output.put fe.ToString

/-- The position of cell `A1`. -/
def A1 : Position := ⟨0, 0⟩

/-- A sheet whose only cell is `A1`, holding the value `v`. -/
def sheetA1 (v : CellValue) : SheetInterface :=
  { GetCell := fun pos => if pos = A1 then some ⟨v⟩ else none }

/-- The empty sheet. -/
def emptySheet : SheetInterface := { GetCell := fun _ => none }

/-- The formula whose tree is `e`, listing the cells `cells`. -/
def formulaOf (e : Expr) (cells : List Position) : Formula :=
  { ast_ := ⟨e, cells⟩, referenced_cells_ := cells }

/-- The tree of the formula `A1+1`. -/
def exprA1Plus1 : Expr := Expr.binary BinaryOp.add (Expr.cell A1) (Expr.number 1)

/-- The tree of the formula `1/A1`. -/
def exprOneOverA1 : Expr := Expr.binary BinaryOp.divide (Expr.number 1) (Expr.cell A1)

/-- A parser that returns the tree of `A1+1` with the cell list B3, F1, B3, D1 (as row and
column: (2,1), (0,5), (2,1), (0,3)), in this order. -/
def sampleParser : String → Except ParsingError FormulaAST :=
  fun _ => Except.ok ⟨exprA1Plus1, [⟨2, 1⟩, ⟨0, 5⟩, ⟨2, 1⟩, ⟨0, 3⟩]⟩

/-! ## Properties of the tree evaluation -/

/-- A callback failure at a resolved position is the result of the whole execution. -/
theorem Expr.execute_of_resolved_error (resolve : Position → Except CppException ℚ)
    (p : Position) (ex : CppException) (hp : resolve p = Except.error ex) :
    ∀ e : Expr, p ∈ e.Resolved resolve → e.Execute resolve = Except.error ex := by
  intro e
  induction e with
  | number value => intro h; simp [Expr.Resolved] at h
  | cell pos =>
      intro h
      simp only [Expr.Resolved, List.mem_singleton] at h
      subst h
      simpa [Expr.Execute] using hp
  | unary op operand ih =>
      intro h
      simp only [Expr.Resolved] at h
      simp [Expr.Execute, ih h]
  | binary op lhs rhs ihl ihr =>
      intro h
      simp only [Expr.Resolved] at h
      cases hl : Expr.Execute resolve lhs with
      | error exl =>
          rw [hl] at h
          have h2 := ihl h
          rw [hl] at h2
          cases h2
          simp [Expr.Execute, hl]
      | ok x =>
          rw [hl] at h
          simp only [List.mem_append] at h
          rcases h with h | h
          · have h2 := ihl h
            rw [hl] at h2
            cases h2
          · simp [Expr.Execute, hl, ihr h]

/-- When the first fault is the resolution of `p`, the callback fails at `p` and its exception
is the result of the execution. -/
theorem Expr.execute_of_firstFault_resolution (resolve : Position → Except CppException ℚ)
    (p : Position) :
    ∀ e : Expr, e.FirstFault resolve = some (Fault.resolution p) →
      ∃ ex, resolve p = Except.error ex ∧ e.Execute resolve = Except.error ex := by
  intro e
  induction e with
  | number value => intro h; simp [Expr.FirstFault] at h
  | cell pos =>
      intro h
      simp only [Expr.FirstFault] at h
      cases hr : resolve pos with
      | ok d => rw [hr] at h; simp at h
      | error ex =>
          rw [hr] at h
          simp only [Option.some.injEq, Fault.resolution.injEq] at h
          subst h
          exact ⟨ex, hr, by simp [Expr.Execute, hr]⟩
  | unary op operand ih =>
      intro h
      simp only [Expr.FirstFault] at h
      obtain ⟨ex, h1, h2⟩ := ih h
      exact ⟨ex, h1, by simp [Expr.Execute, h2]⟩
  | binary op lhs rhs ihl ihr =>
      intro h
      simp only [Expr.FirstFault] at h
      cases hl : Expr.Execute resolve lhs with
      | error exl =>
          rw [hl] at h
          obtain ⟨ex, h1, h2⟩ := ihl h
          exact ⟨ex, h1, by simp [Expr.Execute, h2]⟩
      | ok x =>
          rw [hl] at h
          cases hrr : Expr.Execute resolve rhs with
          | error exr =>
              rw [hrr] at h
              obtain ⟨ex, h1, h2⟩ := ihr h
              exact ⟨ex, h1, by simp [Expr.Execute, hl, h2]⟩
          | ok y =>
              rw [hrr] at h
              simp only at h
              cases ha : op.apply x y with
              | ok v => rw [ha] at h; simp at h
              | error exa => rw [ha] at h; simp at h

/-- The evaluation meets no fault exactly when it returns a number. -/
theorem Expr.firstFault_eq_none_iff (resolve : Position → Except CppException ℚ) :
    ∀ e : Expr, e.FirstFault resolve = none ↔ ∃ v, e.Execute resolve = Except.ok v := by
  intro e
  induction e with
  | number value => simp [Expr.FirstFault, Expr.Execute]
  | cell pos =>
      simp only [Expr.FirstFault, Expr.Execute]
      cases resolve pos <;> simp
  | unary op operand ih =>
      simp only [Expr.FirstFault, Expr.Execute, ih]
      cases Expr.Execute resolve operand <;> simp
  | binary op lhs rhs ihl ihr =>
      simp only [Expr.FirstFault, Expr.Execute]
      cases hl : Expr.Execute resolve lhs with
      | error exl =>
          simp only [ihl, hl]
      | ok x =>
          cases hrr : Expr.Execute resolve rhs with
          | error exr =>
              simp only [ihr, hrr]
          | ok y =>
              simp only
              cases op.apply x y <;> simp

/-- A position whose resolution is the first fault is among the resolved positions. -/
theorem Expr.firstFault_mem_resolved (resolve : Position → Except CppException ℚ)
    (p : Position) :
    ∀ e : Expr, e.FirstFault resolve = some (Fault.resolution p) → p ∈ e.Resolved resolve := by
  intro e
  induction e with
  | number value => intro h; simp [Expr.FirstFault] at h
  | cell pos =>
      intro h
      simp only [Expr.FirstFault] at h
      cases hr : resolve pos with
      | ok d => rw [hr] at h; simp at h
      | error ex =>
          rw [hr] at h
          simp only [Option.some.injEq, Fault.resolution.injEq] at h
          simp [Expr.Resolved, h]
  | unary op operand ih =>
      intro h
      simp only [Expr.FirstFault] at h
      simpa [Expr.Resolved] using ih h
  | binary op lhs rhs ihl ihr =>
      intro h
      simp only [Expr.FirstFault] at h
      simp only [Expr.Resolved]
      cases hl : Expr.Execute resolve lhs with
      | error exl =>
          rw [hl] at h
          exact ihl h
      | ok x =>
          rw [hl] at h
          simp only [List.mem_append]
          cases hrr : Expr.Execute resolve rhs with
          | error exr =>
              rw [hrr] at h
              exact Or.inr (ihr h)
          | ok y =>
              rw [hrr] at h
              simp only at h
              cases ha : op.apply x y with
              | ok v => rw [ha] at h; simp at h
              | error exa => rw [ha] at h; simp at h

/-- The resolution callback throws nothing but a `FormulaError`. -/
theorem resolveCell_error (sheet : SheetInterface) (pos : Position) (ex : CppException)
    (h : resolveCell sheet pos = Except.error ex) : ∃ fe, ex = CppException.formulaError fe := by
  unfold resolveCell at h
  split at h
  · cases h
  · split at h
    · cases h
    · split at h
      · cases h
      · cases h; exact ⟨_, rfl⟩
    · cases h; exact ⟨_, rfl⟩

/-- An arithmetic operation throws nothing but the `Div0` error. -/
theorem BinaryOp.apply_error (op : BinaryOp) (x y : ℚ) (ex : CppException)
    (h : op.apply x y = Except.error ex) : ex = CppException.formulaError ⟨Category.Div0⟩ := by
  cases op <;> simp [BinaryOp.apply] at h
  by_cases hy : y = 0
  · simp [hy] at h; exact h.symm
  · simp [hy] at h

/-- The execution of a tree with the resolution callback throws nothing but a `FormulaError`. -/
theorem Expr.execute_error (sheet : SheetInterface) :
    ∀ (e : Expr) (ex : CppException), e.Execute (resolveCell sheet) = Except.error ex →
      ∃ fe, ex = CppException.formulaError fe := by
  intro e
  induction e with
  | number value => intro ex h; simp [Expr.Execute] at h
  | cell pos => intro ex h; exact resolveCell_error sheet pos ex (by simpa [Expr.Execute] using h)
  | unary op operand ih =>
      intro ex h
      simp only [Expr.Execute] at h
      cases ho : Expr.Execute (resolveCell sheet) operand with
      | ok x => rw [ho] at h; cases h
      | error exo => rw [ho] at h; cases h; exact ih _ ho
  | binary op lhs rhs ihl ihr =>
      intro ex h
      simp only [Expr.Execute] at h
      cases hl : Expr.Execute (resolveCell sheet) lhs with
      | error exl => rw [hl] at h; cases h; exact ihl _ hl
      | ok x =>
          rw [hl] at h
          cases hrr : Expr.Execute (resolveCell sheet) rhs with
          | error exr => rw [hrr] at h; cases h; exact ihr _ hrr
          | ok y =>
              rw [hrr] at h
              exact ⟨_, BinaryOp.apply_error op x y ex h⟩

/-! ## Properties of the text conversion -/

/-- The dot is not a digit. -/
theorem isdigit_dot : isdigit '.' = false := by decide

/-- A text of dots only has no digit to convert. -/
theorem decimalPrefix_dots (s : List Char) (hs : ∀ ch ∈ s, ch = '.') :
    decimalPrefix s = ([], []) := by
  cases s with
  | nil => rfl
  | cons c cs =>
      have hc : c = '.' := hs c (List.mem_cons_self c cs)
      subst hc
      cases cs with
      | nil => rfl
      | cons d ds =>
          have hd : d = '.' := hs d (List.mem_cons_of_mem _ (List.mem_cons_self d ds))
          subst hd
          simp [decimalPrefix, List.takeWhile, List.dropWhile, isdigit_dot]

/-- The conversion `std::stod` of a text of dots only throws `std::invalid_argument`. -/
theorem stod_dots (t : String) (hs : ∀ ch ∈ t.data, ch = '.') :
    stod t = Except.error CppException.invalid_argument := by
  simp [stod, decimalPrefix_dots t.data hs]

/-! ## Properties of the rounding to `double` -/

/-- The bit-by-bit count is the number of binary digits, given enough fuel. -/
theorem bitLengthAux_spec : ∀ fuel n : Nat, n < 2 ^ fuel →
    (n = 0 ∧ bitLengthAux fuel n = 0) ∨
      (0 < n ∧ n < 2 ^ bitLengthAux fuel n ∧ 2 ^ bitLengthAux fuel n ≤ 2 * n) := by
  intro fuel
  induction fuel with
  | zero =>
      intro n h
      left
      simp at h
      exact ⟨h, rfl⟩
  | succ fuel ih =>
      intro n h
      by_cases hn : n = 0
      · left
        exact ⟨hn, by simp [bitLengthAux, hn]⟩
      · right
        have hpos : 0 < n := Nat.pos_of_ne_zero hn
        have hhalf : n / 2 < 2 ^ fuel := by
          rw [pow_succ] at h
          omega
        have hL : bitLengthAux (fuel + 1) n = bitLengthAux fuel (n / 2) + 1 := by
          simp [bitLengthAux, hn]
        rw [hL, pow_succ]
        rcases ih (n / 2) hhalf with ⟨h0, hz⟩ | ⟨h1, h2, h3⟩
        · rw [hz]
          simp
          omega
        · refine ⟨hpos, ?_, ?_⟩ <;> omega

/-- The 32-bit-step count is the number of binary digits, given enough fuel. -/
theorem bitLengthChunk_spec : ∀ fuel n : Nat, n ≤ fuel →
    (n = 0 ∧ bitLengthChunk fuel n = 0) ∨
      (0 < n ∧ n < 2 ^ bitLengthChunk fuel n ∧ 2 ^ bitLengthChunk fuel n ≤ 2 * n) := by
  intro fuel
  induction fuel with
  | zero =>
      intro n h
      left
      exact ⟨by omega, rfl⟩
  | succ fuel ih =>
      intro n h
      by_cases hsmall : n < 2 ^ 32
      · have hL : bitLengthChunk (fuel + 1) n = bitLengthAux 32 n := by
          conv_lhs => unfold bitLengthChunk
          rw [if_pos hsmall]
        rw [hL]
        exact bitLengthAux_spec 32 n hsmall
      · right
        have hL : bitLengthChunk (fuel + 1) n = bitLengthChunk fuel (n / 2 ^ 32) + 32 := by
          conv_lhs => unfold bitLengthChunk
          rw [if_neg hsmall]
        have hbig : 2 ^ 32 ≤ n := Nat.le_of_not_lt hsmall
        have hq : n / 2 ^ 32 ≤ fuel := by
          have : n / 2 ^ 32 < n := Nat.div_lt_self (by omega) (by norm_num)
          omega
        have hqpos : 0 < n / 2 ^ 32 := Nat.div_pos hbig (by norm_num)
        have hmul : n / 2 ^ 32 * 2 ^ 32 ≤ n := Nat.div_mul_le_self n (2 ^ 32)
        have hlt : n < (n / 2 ^ 32 + 1) * 2 ^ 32 := by
          have := Nat.div_add_mod n (2 ^ 32)
          have := Nat.mod_lt n (show 0 < 2 ^ 32 by norm_num)
          omega
        rw [hL, pow_add]
        rcases ih (n / 2 ^ 32) hq with ⟨h0, _⟩ | ⟨h1, h2, h3⟩
        · omega
        · refine ⟨by omega, ?_, ?_⟩
          · calc n < (n / 2 ^ 32 + 1) * 2 ^ 32 := hlt
              _ ≤ 2 ^ bitLengthChunk fuel (n / 2 ^ 32) * 2 ^ 32 :=
                Nat.mul_le_mul_right _ h2
          · calc 2 ^ bitLengthChunk fuel (n / 2 ^ 32) * 2 ^ 32
                ≤ 2 * (n / 2 ^ 32) * 2 ^ 32 := Nat.mul_le_mul_right _ h3
              _ = 2 * (n / 2 ^ 32 * 2 ^ 32) := by ring
              _ ≤ 2 * n := Nat.mul_le_mul_left _ hmul

/-- Zero has no binary digit. -/
theorem bitLength_zero : bitLength 0 = 0 := rfl

/-- A positive `n` has `bitLength n` binary digits: `2^(L-1) ≤ n < 2^L`. -/
theorem bitLength_spec (n : Nat) (h : 0 < n) :
    n < 2 ^ bitLength n ∧ 2 ^ bitLength n ≤ 2 * n := by
  rcases bitLengthChunk_spec n n (le_refl n) with ⟨h0, _⟩ | ⟨_, h2, h3⟩
  · omega
  · exact ⟨h2, h3⟩

/-- No integer is nearer to `num / den` than `roundTiesEven num den` (distances scaled by
`den`, as truncated differences). -/
theorem roundTiesEven_nearest (num den n : Nat) (hden : 0 < den) :
    roundTiesEven num den * den - num + (num - roundTiesEven num den * den)
      ≤ n * den - num + (num - n * den) := by
  have hdm : den * (num / den) + num % den = num := Nat.div_add_mod num den
  have hrem : num % den < den := Nat.mod_lt num hden
  have hcomm : num / den * den = den * (num / den) := Nat.mul_comm _ _
  rcases Nat.lt_or_ge (num / den) n with hn | hn
  · have h1 : (num / den + 1) * den ≤ n * den := Nat.mul_le_mul_right _ hn
    have h2 : (num / den + 1) * den = num / den * den + den := by ring
    unfold roundTiesEven
    split
    · rename_i hc
      simp only [Bool.or_eq_true, decide_eq_true_eq, Bool.and_eq_true, beq_iff_eq] at hc
      omega
    · rename_i hc
      simp only [Bool.or_eq_true, decide_eq_true_eq, Bool.and_eq_true, beq_iff_eq, not_or] at hc
      omega
  · have h1 : n * den ≤ num / den * den := Nat.mul_le_mul_right _ hn
    have h2 : (num / den + 1) * den = num / den * den + den := by ring
    unfold roundTiesEven
    split
    · rename_i hc
      simp only [Bool.or_eq_true, decide_eq_true_eq, Bool.and_eq_true, beq_iff_eq] at hc
      omega
    · rename_i hc
      simp only [Bool.or_eq_true, decide_eq_true_eq, Bool.and_eq_true, beq_iff_eq, not_or] at hc
      omega

/-- No number of at most 53 significant bits is nearer to `num / den` than
`roundTo53Bits num den`. -/
theorem roundTo53Bits_nearest (num den k j : Nat) (hden : 0 < den) (hk : k < 2 ^ 53) :
    roundTo53Bits num den * den - num + (num - roundTo53Bits num den * den)
      ≤ k * 2 ^ j * den - num + (num - k * 2 ^ j * den) := by
  unfold roundTo53Bits
  simp only
  set e := bitLength (num / den) - 53 with he
  have hU : 0 < 2 ^ e := Nat.pow_pos (by norm_num)
  have hD : 0 < den * 2 ^ e := Nat.mul_pos hden hU
  have hR : roundTiesEven num (den * 2 ^ e) * 2 ^ e * den
      = roundTiesEven num (den * 2 ^ e) * (den * 2 ^ e) := by ring
  rw [hR]
  rcases Nat.lt_or_ge j e with hj | hj
  · have hne : 0 < e := by omega
    have hFpos : 0 < num / den := by
      by_contra h0
      have h00 : num / den = 0 := Nat.eq_zero_of_not_pos h0
      rw [h00, bitLength_zero] at he
      omega
    obtain ⟨_, hF2⟩ := bitLength_spec (num / den) hFpos
    have hL : bitLength (num / den) = e + 53 := by omega
    rw [hL, pow_add] at hF2
    have hFd : num / den * den ≤ num := Nat.div_mul_le_self num den
    have hX : k * 2 ^ j < 2 ^ 52 * 2 ^ e := by
      have h1 : k * 2 ^ j < 2 ^ 53 * 2 ^ j :=
        Nat.mul_lt_mul_of_pos_right hk (Nat.pow_pos (by norm_num))
      have h2 : 2 ^ 53 * 2 ^ j ≤ 2 ^ 52 * 2 ^ e := by
        have h3 : 2 ^ (j + 1) ≤ 2 ^ e := Nat.pow_le_pow_right (by norm_num) (by omega)
        rw [pow_succ] at h3
        have h4 : (2 : ℕ) ^ 53 = 2 ^ 52 * 2 := by norm_num
        rw [h4, Nat.mul_assoc]
        calc 2 ^ 52 * (2 * 2 ^ j) = 2 ^ 52 * (2 ^ j * 2) := by ring
          _ ≤ 2 ^ 52 * 2 ^ e := Nat.mul_le_mul_left _ h3
      omega
    have hB : 2 ^ 52 * 2 ^ e ≤ num / den := by
      have h4 : (2 : ℕ) ^ 53 = 2 * 2 ^ 52 := by norm_num
      rw [h4] at hF2
      have : 2 * (2 ^ 52 * 2 ^ e) ≤ 2 * (num / den) := by
        calc 2 * (2 ^ 52 * 2 ^ e) = 2 ^ e * (2 * 2 ^ 52) := by ring
          _ ≤ 2 * (num / den) := hF2
      omega
    have hBd : 2 ^ 52 * 2 ^ e * den ≤ num :=
      le_trans (Nat.mul_le_mul_right _ hB) hFd
    have hXd : k * 2 ^ j * den ≤ 2 ^ 52 * 2 ^ e * den :=
      Nat.mul_le_mul_right _ (le_of_lt hX)
    have hnear := roundTiesEven_nearest num (den * 2 ^ e) (2 ^ 52) hD
    have hBD : 2 ^ 52 * (den * 2 ^ e) = 2 ^ 52 * 2 ^ e * den := by ring
    rw [hBD] at hnear
    omega
  · have hnear := roundTiesEven_nearest num (den * 2 ^ e) (k * 2 ^ (j - e)) hD
    have hX : k * 2 ^ (j - e) * (den * 2 ^ e) = k * 2 ^ j * den := by
      have : (2 : ℕ) ^ j = 2 ^ (j - e) * 2 ^ e := by
        rw [← pow_add]
        congr 1
        omega
      rw [this]
      ring
    rw [hX] at hnear
    exact hnear

/-- A quotient of at most 53 significant bits is its own rounding. -/
theorem roundTo53Bits_exact (num den k j : Nat) (hden : 0 < den) (hk : k < 2 ^ 53)
    (hx : k * 2 ^ j * den = num) : roundTo53Bits num den * den = num := by
  have h := roundTo53Bits_nearest num den k j hden hk
  omega

/-- The callback on a cell whose text fails the digit-or-dot check throws the `Value` error. -/
theorem resolveCell_text_rejected (sheet : SheetInterface) (p : Position) (cell : CellInterface)
    (t : String) (hcell : sheet.GetCell p = some cell) (hval : cell.GetValue = CellValue.text t)
    (hbad : ∃ ch ∈ t.data, isdigit ch = false ∧ ch ≠ '.') :
    resolveCell sheet p = Except.error (CppException.formulaError ⟨Category.Value⟩) := by
  obtain ⟨ch, hmem, hd, hdot⟩ := hbad
  have hall : t.data.all (fun ch => isdigit ch || ch == '.') = false := by
    rw [Bool.eq_false_iff]
    intro h
    rw [List.all_eq_true] at h
    have h2 := h ch hmem
    simp [hd, hdot] at h2
  simp [resolveCell, hcell, hval, hall]

/-- The callback on a cell whose text is made of dots only throws the `Value` error. -/
theorem resolveCell_text_dots (sheet : SheetInterface) (p : Position) (cell : CellInterface)
    (t : String) (hcell : sheet.GetCell p = some cell) (hval : cell.GetValue = CellValue.text t)
    (hdots : ∀ ch ∈ t.data, ch = '.') :
    resolveCell sheet p = Except.error (CppException.formulaError ⟨Category.Value⟩) := by
  have hall : t.data.all (fun ch => isdigit ch || ch == '.') = true := by
    rw [List.all_eq_true]
    intro ch hmem
    simp [hdots ch hmem]
  simp [resolveCell, hcell, hval, hall, stod_dots t hdots]

/-- The result of `Formula::Evaluate` when the execution of the tree throws a `FormulaError`. -/
theorem Formula.evaluate_of_execute_error (f : Formula) (sheet : SheetInterface)
    (fe : FormulaError)
    (h : f.ast_.root_expr_.Execute (resolveCell sheet) =
      Except.error (CppException.formulaError fe)) :
    f.Evaluate sheet = Except.ok (FormulaValue.error fe) := by
  simp [Formula.Evaluate, FormulaAST.Execute, h]

/-! ## The claims -/

/-- C1: for every sheet and every position at which the sheet has no cell, the resolution
callback yields the number 0; so the formula made of that reference plus 1 (in particular `A1+1`
with `A1` never set) evaluates to 1. -/
theorem absent_cell_is_zero (sheet : SheetInterface) (p : Position) (cells : List Position)
    (h : sheet.GetCell p = none) :
    resolveCell sheet p = Except.ok 0 ∧
      (formulaOf (Expr.binary BinaryOp.add (Expr.cell p) (Expr.number 1)) cells).Evaluate sheet
        = Except.ok (FormulaValue.number 1) := by
  have hr : resolveCell sheet p = Except.ok 0 := by simp [resolveCell, h]
  refine ⟨hr, ?_⟩
  simp [formulaOf, Formula.Evaluate, FormulaAST.Execute, Expr.Execute, hr, BinaryOp.apply]

/-- Witness of C1: `A1+1` on the empty sheet. -/
theorem absent_cell_is_zero_witness :
    emptySheet.GetCell A1 = none ∧ resolveCell emptySheet A1 = Except.ok 0 ∧
      (formulaOf exprA1Plus1 [A1]).Evaluate emptySheet = Except.ok (FormulaValue.number 1) :=
  ⟨rfl, absent_cell_is_zero emptySheet A1 [A1] rfl⟩

/-- C2: when the evaluation of a formula resolves a cell whose value is a text with at least one
character that is neither a decimal digit nor a dot, the formula evaluates to the `Value`
error. -/
theorem text_with_other_character_is_value_error (f : Formula) (sheet : SheetInterface)
    (p : Position) (cell : CellInterface) (t : String)
    (hres : p ∈ f.ast_.root_expr_.Resolved (resolveCell sheet))
    (hcell : sheet.GetCell p = some cell) (hval : cell.GetValue = CellValue.text t)
    (hbad : ∃ ch ∈ t.data, isdigit ch = false ∧ ch ≠ '.') :
    f.Evaluate sheet = Except.ok (FormulaValue.error ⟨Category.Value⟩) :=
  Formula.evaluate_of_execute_error f sheet _
    (Expr.execute_of_resolved_error _ p _
      (resolveCell_text_rejected sheet p cell t hcell hval hbad) _ hres)

/-- Witness of C2: `A1` holds the text `abc` and the formula is `A1+1`. -/
theorem text_with_other_character_is_value_error_witness :
    (formulaOf exprA1Plus1 [A1]).Evaluate (sheetA1 (CellValue.text "abc"))
      = Except.ok (FormulaValue.error ⟨Category.Value⟩) :=
  text_with_other_character_is_value_error (formulaOf exprA1Plus1 [A1])
    (sheetA1 (CellValue.text "abc")) A1 ⟨CellValue.text "abc"⟩ "abc"
    (by decide) rfl rfl ⟨'a', by decide, by decide, by decide⟩

/-- C3, the behaviour of the code at the text `1.2.3`: the text passes the digit-or-dot check,
`std::stod` converts the leading `1.2` and ignores the rest, so the callback yields a number (the
`double` nearest to 6/5, which is 5404319552844595 / 2^52) and the formula `A1` evaluates to that
number, not to the `Value` error; likewise the text `1..2` yields the number 1. -/
theorem text_with_two_dots_is_accepted :
    "1.2.3".data.all (fun ch => isdigit ch || ch == '.') = true ∧
      resolveCell (sheetA1 (CellValue.text "1.2.3")) A1
        = Except.ok (5404319552844595 / 4503599627370496) ∧
      (formulaOf (Expr.cell A1) [A1]).Evaluate (sheetA1 (CellValue.text "1.2.3"))
        = Except.ok (FormulaValue.number (5404319552844595 / 4503599627370496)) ∧
      resolveCell (sheetA1 (CellValue.text "1..2")) A1 = Except.ok 1 := by
  have h : resolveCell (sheetA1 (CellValue.text "1.2.3")) A1
      = Except.ok (((5404319552844595 * 2 ^ 1022 : ℕ) : ℚ) / 2 ^ 1074) := rfl
  have h2 : resolveCell (sheetA1 (CellValue.text "1..2")) A1
      = Except.ok (((2 ^ 1074 : ℕ) : ℚ) / 2 ^ 1074) := rfl
  have hv : (((5404319552844595 * 2 ^ 1022 : ℕ) : ℚ) / 2 ^ 1074)
      = 5404319552844595 / 4503599627370496 := by norm_num
  have hv2 : (((2 ^ 1074 : ℕ) : ℚ) / 2 ^ 1074) = 1 := by norm_num
  refine ⟨by decide, ?_, ?_, ?_⟩
  · rw [h, hv]
  · simp only [formulaOf, Formula.Evaluate, FormulaAST.Execute, Expr.Execute, h, hv]
  · rw [h2, hv2]

/-- C4: if the first fault met while evaluating the tree is the resolution of a cell whose value
is an error of kind `k`, then `Formula::Evaluate` returns exactly the error of kind `k`. -/
theorem first_fault_error_cell_is_returned (f : Formula) (sheet : SheetInterface)
    (p : Position) (cell : CellInterface) (k : Category)
    (hfault : f.ast_.root_expr_.FirstFault (resolveCell sheet) = some (Fault.resolution p))
    (hcell : sheet.GetCell p = some cell) (hval : cell.GetValue = CellValue.error ⟨k⟩) :
    f.Evaluate sheet = Except.ok (FormulaValue.error ⟨k⟩) := by
  obtain ⟨ex, h1, h2⟩ := Expr.execute_of_firstFault_resolution (resolveCell sheet) p _ hfault
  have hr : resolveCell sheet p = Except.error (CppException.formulaError ⟨k⟩) := by
    simp [resolveCell, hcell, hval]
  rw [hr] at h1
  cases h1
  exact Formula.evaluate_of_execute_error f sheet _ h2

/-- Witness of C4: `A1` holds the `Ref` error and the formula is `1/A1`. -/
theorem first_fault_error_cell_is_returned_witness :
    (formulaOf exprOneOverA1 [A1]).Evaluate (sheetA1 (CellValue.error ⟨Category.Ref⟩))
      = Except.ok (FormulaValue.error ⟨Category.Ref⟩) :=
  first_fault_error_cell_is_returned (formulaOf exprOneOverA1 [A1])
    (sheetA1 (CellValue.error ⟨Category.Ref⟩)) A1 ⟨CellValue.error ⟨Category.Ref⟩⟩ Category.Ref
    (by decide) rfl rfl

/-- C5: whenever the execution of the tree raises an exception, that exception is a formula
error and `Formula::Evaluate` does not fail but returns that error as its value; and with `A1`
holding the number 0, or the text `0`, the formula `1/A1` evaluates to the `Div0` error. -/
theorem raised_error_is_returned (f : Formula) (sheet : SheetInterface) (ex : CppException)
    (h : f.ast_.Execute (resolveCell sheet) = Except.error ex) :
    (∃ fe, ex = CppException.formulaError fe ∧
        f.Evaluate sheet = Except.ok (FormulaValue.error fe)) ∧
      (formulaOf exprOneOverA1 [A1]).Evaluate (sheetA1 (CellValue.number 0))
        = Except.ok (FormulaValue.error ⟨Category.Div0⟩) ∧
      (formulaOf exprOneOverA1 [A1]).Evaluate (sheetA1 (CellValue.text "0"))
        = Except.ok (FormulaValue.error ⟨Category.Div0⟩) := by
  refine ⟨?_, ?_, ?_⟩
  · obtain ⟨fe, hfe⟩ := Expr.execute_error sheet f.ast_.root_expr_ ex h
    subst hfe
    exact ⟨fe, rfl, Formula.evaluate_of_execute_error f sheet fe h⟩
  · have hr : resolveCell (sheetA1 (CellValue.number 0)) A1 = Except.ok 0 := rfl
    simp [formulaOf, exprOneOverA1, Formula.Evaluate, FormulaAST.Execute, Expr.Execute, hr,
      BinaryOp.apply]
  · have hr : resolveCell (sheetA1 (CellValue.text "0")) A1
        = Except.ok (((0 : ℕ) : ℚ) / 2 ^ 1074) := rfl
    simp [formulaOf, exprOneOverA1, Formula.Evaluate, FormulaAST.Execute, Expr.Execute, hr,
      BinaryOp.apply]

/-- Witness of C5: the execution of `1/A1` with `A1` holding the number 0 raises `Div0`. -/
theorem raised_error_is_returned_witness :
    (formulaOf exprOneOverA1 [A1]).ast_.Execute (resolveCell (sheetA1 (CellValue.number 0)))
        = Except.error (CppException.formulaError ⟨Category.Div0⟩) ∧
      ∃ fe, CppException.formulaError ⟨Category.Div0⟩ = CppException.formulaError fe ∧
        (formulaOf exprOneOverA1 [A1]).Evaluate (sheetA1 (CellValue.number 0))
          = Except.ok (FormulaValue.error fe) := by
  have hr : resolveCell (sheetA1 (CellValue.number 0)) A1 = Except.ok 0 := rfl
  have hexec : (formulaOf exprOneOverA1 [A1]).ast_.Execute
      (resolveCell (sheetA1 (CellValue.number 0)))
        = Except.error (CppException.formulaError ⟨Category.Div0⟩) := by
    simp [formulaOf, exprOneOverA1, FormulaAST.Execute, Expr.Execute, hr, BinaryOp.apply]
  exact ⟨hexec, (raised_error_is_returned _ _ _ hexec).1⟩

/-- C10: for a cell that exists and whose value is a text with no digit that passes the
digit-or-dot check (the empty text, `.`, `..`), the callback raises the `Value` error and
every formula whose evaluation resolves the cell evaluates to the `Value` error, whereas the
callback yields 0 for an absent cell. -/
theorem digitless_text_is_value_error (f : Formula) (sheet : SheetInterface) (p : Position)
    (cell : CellInterface) (t : String)
    (hres : p ∈ f.ast_.root_expr_.Resolved (resolveCell sheet))
    (hcell : sheet.GetCell p = some cell) (hval : cell.GetValue = CellValue.text t)
    (hpass : t.data.all (fun ch => isdigit ch || ch == '.') = true)
    (hnodigit : ∀ ch ∈ t.data, isdigit ch = false) :
    resolveCell sheet p = Except.error (CppException.formulaError ⟨Category.Value⟩) ∧
      f.Evaluate sheet = Except.ok (FormulaValue.error ⟨Category.Value⟩) ∧
      resolveCell emptySheet p = Except.ok 0 := by
  have hdots : ∀ ch ∈ t.data, ch = '.' := by
    intro ch hmem
    rw [List.all_eq_true] at hpass
    have h := hpass ch hmem
    simpa [hnodigit ch hmem] using h
  have hr := resolveCell_text_dots sheet p cell t hcell hval hdots
  exact ⟨hr, Formula.evaluate_of_execute_error f sheet _
    (Expr.execute_of_resolved_error _ p _ hr _ hres), rfl⟩

/-- Witness of C10: `A1` holds the empty text and the formula is `A1+1`. -/
theorem digitless_text_is_value_error_witness :
    resolveCell (sheetA1 (CellValue.text "")) A1
        = Except.error (CppException.formulaError ⟨Category.Value⟩) ∧
      (formulaOf exprA1Plus1 [A1]).Evaluate (sheetA1 (CellValue.text ""))
        = Except.ok (FormulaValue.error ⟨Category.Value⟩) ∧
      resolveCell emptySheet A1 = Except.ok 0 :=
  digitless_text_is_value_error (formulaOf exprA1Plus1 [A1]) (sheetA1 (CellValue.text "")) A1
    ⟨CellValue.text ""⟩ "" (by decide) rfl rfl (by decide) (by decide)

/-! ## The order of positions and the set of referenced cells -/

/-- The order `operator<` of positions, unfolded. -/
theorem Position.less_iff (a b : Position) :
    Position.less a b = true ↔ a.row < b.row ∨ (a.row = b.row ∧ a.col < b.col) := by
  simp [Position.less]

/-- The order of positions is transitive. -/
theorem Position.less_trans (a b c : Position) (hab : Position.less a b = true)
    (hbc : Position.less b c = true) : Position.less a c = true := by
  rw [Position.less_iff] at *
  omega

/-- No position is less than itself. -/
theorem Position.less_irrefl (a : Position) : Position.less a a = false := by
  rw [Bool.eq_false_iff, Ne, Position.less_iff]
  omega

/-- Two positions neither of which is less than the other are equal: equivalence under
`operator<` is equality. -/
theorem Position.eq_of_not_less (a b : Position) (hab : Position.less a b = false)
    (hba : Position.less b a = false) : a = b := by
  rw [Bool.eq_false_iff, Ne, Position.less_iff] at hab hba
  cases a with
  | mk ar ac =>
    cases b with
    | mk br bc =>
      simp only at hab hba
      have h1 : ar = br := by omega
      have h2 : ac = bc := by omega
      rw [h1, h2]

/-- The elements of a set after an insertion. -/
theorem mem_setInsert (x p : Position) (l : List Position) :
    p ∈ setInsert x l ↔ p = x ∨ p ∈ l := by
  induction l with
  | nil => simp [setInsert]
  | cons y ys ih =>
      unfold setInsert
      cases h1 : Position.less x y with
      | true => simp
      | false =>
          cases h2 : Position.less y x with
          | true =>
              simp only [Bool.false_eq_true, if_true, if_false, List.mem_cons, ih]
              tauto
          | false =>
              have hxy : x = y := Position.eq_of_not_less x y h1 h2
              subst hxy
              simp only [Bool.false_eq_true, if_false, List.mem_cons]
              tauto

/-- An insertion keeps the set strictly increasing. -/
theorem sorted_setInsert (x : Position) (l : List Position)
    (hl : l.Pairwise (fun a b => a < b)) : (setInsert x l).Pairwise (fun a b => a < b) := by
  induction l with
  | nil => simp [setInsert]
  | cons y ys ih =>
      rw [List.pairwise_cons] at hl
      unfold setInsert
      cases h1 : Position.less x y with
      | true =>
          simp only [if_true]
          refine List.Pairwise.cons ?_ (List.Pairwise.cons hl.1 hl.2)
          intro z hz
          rcases List.mem_cons.mp hz with hz | hz
          · rw [hz]; exact h1
          · exact Position.less_trans x y z h1 (hl.1 z hz)
      | false =>
          cases h2 : Position.less y x with
          | true =>
              simp only [Bool.false_eq_true, if_true, if_false]
              refine List.Pairwise.cons ?_ (ih hl.2)
              intro z hz
              rcases (mem_setInsert x z ys).mp hz with hz | hz
              · rw [hz]; exact h2
              · exact hl.1 z hz
          | false =>
              simp only [Bool.false_eq_true, if_false]
              exact List.Pairwise.cons hl.1 hl.2

/-- The range insertion into a strictly increasing set gives a strictly increasing set
whose elements are those of the set and of the range. -/
theorem foldl_setInsert (range : List Position) :
    ∀ acc : List Position, acc.Pairwise (fun a b => a < b) →
      (range.foldl (fun unique cell => setInsert cell unique) acc).Pairwise (fun a b => a < b) ∧
      ∀ p, p ∈ range.foldl (fun unique cell => setInsert cell unique) acc ↔
        p ∈ acc ∨ p ∈ range := by
  induction range with
  | nil => intro acc h; simp [h]
  | cons x xs ih =>
      intro acc h
      obtain ⟨h1, h2⟩ := ih (setInsert x acc) (sorted_setInsert x acc h)
      refine ⟨h1, ?_⟩
      intro p
      simp only [List.foldl_cons, h2, mem_setInsert, List.mem_cons]
      tauto

/-- The loop of `push_back` copies the traversed sequence after the vector. -/
theorem foldl_push_back (l : List Position) :
    ∀ acc : List Position, l.foldl (fun result cell => result ++ [cell]) acc = acc ++ l := by
  induction l with
  | nil => intro acc; simp
  | cons x xs ih => intro acc; simp [ih]

/-- C6: for every constructed formula, `GetReferencedCells` returns a sequence that is strictly
increasing in the row-major order of positions (so it has no duplicates) and whose elements are
exactly the positions listed by the expression tree, whatever their order and multiplicity
there. -/
theorem referenced_cells_sorted_exact
    (ParseFormulaAST : String → Except ParsingError FormulaAST) (expression : String)
    (f : Formula) (h : Formula.ctor ParseFormulaAST expression = Except.ok f) :
    f.GetReferencedCells.Pairwise (fun a b => a < b) ∧ f.GetReferencedCells.Nodup ∧
      ∀ p, p ∈ f.GetReferencedCells ↔ p ∈ f.ast_.GetCells := by
  have hcells : f.referenced_cells_ = f.ast_.GetCells := by
    unfold Formula.ctor at h
    cases hp : ParseFormulaAST expression with
    | error e => rw [hp] at h; cases h
    | ok ast => rw [hp] at h; cases h; rfl
  have hget : f.GetReferencedCells = setOfRange f.referenced_cells_ := by
    simp [Formula.GetReferencedCells, foldl_push_back]
  obtain ⟨h1, h2⟩ := foldl_setInsert f.referenced_cells_ [] List.Pairwise.nil
  rw [hget]
  refine ⟨h1, ?_, ?_⟩
  · refine List.Pairwise.imp ?_ h1
    intro a b hab heq
    subst heq
    have hirr := Position.less_irrefl a
    have hab2 : Position.less a a = true := hab
    rw [hirr] at hab2
    cases hab2
  · intro p
    rw [← hcells]
    simpa [setOfRange] using h2 p

/-- Witness of C6: the cell list B3, F1, B3, D1 is returned as D1, F1, B3. -/
theorem referenced_cells_sorted_exact_witness :
    (formulaOf exprA1Plus1 [⟨2, 1⟩, ⟨0, 5⟩, ⟨2, 1⟩, ⟨0, 3⟩]).GetReferencedCells
        = [⟨0, 3⟩, ⟨0, 5⟩, ⟨2, 1⟩] ∧
      (formulaOf exprA1Plus1 [⟨2, 1⟩, ⟨0, 5⟩, ⟨2, 1⟩, ⟨0, 3⟩]).GetReferencedCells.Pairwise
        (fun a b => a < b) :=
  ⟨by decide, (referenced_cells_sorted_exact sampleParser "A1+1"
    (formulaOf exprA1Plus1 [⟨2, 1⟩, ⟨0, 5⟩, ⟨2, 1⟩, ⟨0, 3⟩]) rfl).1⟩

/-- C7: for every expression text, `ParseFormula` fails if and only if the external parser fails
on that text, its failure is always the `FormulaException` with the message
`Formula parse error`, and when the parser succeeds `ParseFormula` returns the formula built
from the parsed tree. -/
theorem parseFormula_fails_iff_parser_fails
    (ParseFormulaAST : String → Except ParsingError FormulaAST) (expression : String) :
    ((ParseFormula ParseFormulaAST expression
          = Except.error (CppException.formulaException "Formula parse error")) ↔
        ∃ e, ParseFormulaAST expression = Except.error e) ∧
      (∀ ex, ParseFormula ParseFormulaAST expression = Except.error ex →
        ex = CppException.formulaException "Formula parse error") ∧
      (∀ ast, ParseFormulaAST expression = Except.ok ast →
        ParseFormula ParseFormulaAST expression
          = Except.ok { ast_ := ast, referenced_cells_ := ast.GetCells }) := by
  cases hp : ParseFormulaAST expression with
  | error e =>
      have hpf : ParseFormula ParseFormulaAST expression
          = Except.error (CppException.formulaException "Formula parse error") := by
        simp [ParseFormula, Formula.ctor, hp, CppException.isStdException]
      refine ⟨⟨fun _ => ⟨e, rfl⟩, fun _ => hpf⟩, ?_, ?_⟩
      · intro ex hex
        rw [hpf] at hex
        cases hex
        rfl
      · intro ast hast
        cases hast
  | ok ast =>
      have hpf : ParseFormula ParseFormulaAST expression
          = Except.ok { ast_ := ast, referenced_cells_ := ast.GetCells } := by
        simp [ParseFormula, Formula.ctor, hp]
      refine ⟨⟨fun h => ?_, fun h => ?_⟩, ?_, ?_⟩
      · rw [hpf] at h
        cases h
      · obtain ⟨e, he⟩ := h
        cases he
      · intro ex hex
        rw [hpf] at hex
        cases hex
      · intro ast2 hast
        cases hast
        exact hpf

/-- C9: writing a `FormulaError` with `operator<<` appends exactly its `ToString()` text to the
stream, and that text is `#REF!` for `Ref`, `#VALUE!` for `Value` and `#DIV/0!` for `Div0`. -/
theorem output_appends_error_text (output : OStream) (fe : FormulaError) :
    (FormulaError.output output fe).written = output.written ++ fe.ToString ∧
      FormulaError.ToString ⟨Category.Ref⟩ = "#REF!" ∧
      FormulaError.ToString ⟨Category.Value⟩ = "#VALUE!" ∧
      FormulaError.ToString ⟨Category.Div0⟩ = "#DIV/0!" :=
  ⟨rfl, rfl, rfl, rfl⟩

end Spreadsheet
